import Mathlib

/-!
# Verification of `autoclass` (python-classtools-autocode)

Shallow embedding of the library's class decorators and of the runtime
behaviour of the classes they produce.

The file under `src/autoclass/autoclass.py` contains the composing decorator
`autoclass` / `autoclass_decorate`; the three elementary decorators
(`autoargs_decorate`, `autoprops_decorate`, `autodict_decorate`) are imported
there from modules that are not part of the available sources, so their
behaviour is modelled from the specification and from the repository's
documentation tests (`src/autoclass/tests/test_readme.py`).

Model overview:
* a Python value is `Value` (ints, strings, booleans, `None`);
* an instance's `__dict__` (`vars(obj)`) is an association list `Attrs`;
* a constructor is `Ctor`: a parameter list (names with optional defaults)
  and a body made of attribute assignments, plus the `autoargs` mirroring
  state installed by `autoargs_decorate`;
* a class is `Cls`: its constructor, the set of generated property names,
  the user-supplied validation hooks, and the `autodict` configuration;
* `runInit` executes a constructor call, `setAttr`/`getAttr` execute
  attribute access through generated properties, `dictView` is the mapping
  view generated by `autodict`, and `from_dict` is the generated reverse
  constructor.
-/

/-- A Python runtime value, restricted to the shapes used by the tests. -/
inductive Value where
  | vInt  (n : Int)
  | vStr  (s : String)
  | vBool (b : Bool)
  | vNone
deriving DecidableEq, Repr

/-- An instance attribute dictionary (`vars(obj)`): an association list from
attribute names to values; the first binding of a name is its value. -/
abbrev Attrs := List (String × Value)

namespace Attrs

/-- Look a name up in an attribute dictionary. -/
def lookup : Attrs → String → Option Value
  | [], _ => none
  | (k, v) :: rest, n => if k = n then some v else lookup rest n

/-- Set a name to a value (update in place, or append when absent),
the semantics of `setattr` on `__dict__`. -/
def set : Attrs → String → Value → Attrs
  | [], n, v => [(n, v)]
  | (k, w) :: rest, n, v =>
      if k = n then (n, v) :: rest else (k, w) :: set rest n v

/-- The key list of an attribute dictionary. -/
def keys (a : Attrs) : List String := a.map Prod.fst

/-- Boolean extensional equality of two attribute dictionaries,
the semantics of `dict` equality in Python. -/
def mapEqB (a b : Attrs) : Bool :=
  (keys a ++ keys b).all fun n => decide (lookup a n = lookup b n)

end Attrs

/-- A constructor parameter: a name and an optional default value. -/
structure Param where
  name : String
  dflt : Option Value
deriving DecidableEq, Repr

/-- A statement of a constructor body: assign a parameter's value, or a
constant, to an instance attribute (`self.attr = param` / `self.attr = c`).
Class-private targets appear under their already mangled name. -/
inductive Stmt where
  | assignParam (attr : String) (param : String)
  | assignConst (attr : String) (v : Value)
deriving DecidableEq, Repr

/-- The target attribute name of a body statement. -/
def Stmt.target : Stmt → String
  | .assignParam a _ => a
  | .assignConst a _ => a

/-- A class constructor (`__init__`): its signature, its body, and the
mirroring state installed by `autoargs_decorate` (absent on an undecorated
constructor). -/
structure Ctor where
  params : List Param
  body : List Stmt
  mirrored : Bool
  mIncl : Option (List String)
  mExcl : Option (List String)

/-- A user validation hook: `none` accepts the value, `some e` rejects it
with the user-supplied error `e`. -/
abbrev Hook := Value → Option String

/-- A class object, as far as the decorators observe and modify it. -/
structure Cls where
  ctor : Ctor
  propNames : List String
  hooks : List (String × Hook)
  hasDict : Bool
  dictIncl : Option (List String)
  dictExcl : Option (List String)
  dictOnlyCtor : Bool
  dictOnlyPublic : Bool

/-- The include/exclude attribute-name filter shared by all decorators:
`incl = none` means all names, otherwise only the listed ones; names listed
in `excl` are removed. -/
def filterAccepts (incl excl : Option (List String)) (n : String) : Bool :=
  (match incl with
   | none => true
   | some l => l.contains n) &&
  (match excl with
   | none => true
   | some l => !l.contains n)

/-- The names of a class's constructor parameters. -/
def paramNames (c : Cls) : List String := c.ctor.params.map Param.name

/-- `get_constructor` from `utils_reflexion`: retrieve the class's
constructor. -/
def get_constructor (cls : Cls) : Ctor := cls.ctor

/-- Modelled from the spec: `autoargs_decorate` wraps a constructor so that
each constructor parameter passing the include/exclude filter is copied onto
an identically named instance attribute when the constructor is called. -/
def autoargs_decorate (init : Ctor) (incl excl : Option (List String)) : Ctor :=
  { init with mirrored := true, mIncl := incl, mExcl := excl }

/-- Modelled from the spec: `autoprops_decorate` adds to the class a paired
getter and setter property for every constructor parameter passing the
include/exclude filter; the setter applies the user validation hook
registered for that name, when there is one. -/
def autoprops_decorate (cls : Cls) (incl excl : Option (List String)) : Cls :=
  { cls with
      propNames := (cls.ctor.params.map Param.name).filter (filterAccepts incl excl) }

/-- Modelled from the spec: `autodict_decorate` makes instances of the class
behave as a read-only mapping over a chosen subset of their attributes and
adds the reverse constructor `from_dict`. -/
def autodict_decorate (cls : Cls) (incl excl : Option (List String))
    (onlyCtor onlyPublic : Bool) : Cls :=
  { cls with
      hasDict := true
      dictIncl := incl
      dictExcl := excl
      dictOnlyCtor := onlyCtor
      dictOnlyPublic := onlyPublic }

/-- `autoclass_decorate` from `src/autoclass/autoclass.py`: apply
`autoargs`, `autoprops` and `autodict` in sequence with the same
include/exclude list, each step guarded by its boolean flag; the class
object itself is returned. -/
def autoclass_decorate (cls : Cls) (incl excl : Option (List String))
    (autoargs : Bool) (autoprops : Bool) (autodict : Bool) : Cls :=
  let c1 :=
    if autoargs then
      { cls with ctor := autoargs_decorate (get_constructor cls) incl excl }
    else cls
  let c2 := if autoprops then autoprops_decorate c1 incl excl else c1
  let c3 := if autodict then autodict_decorate c2 incl excl true true else c2
  c3

/-! ## Runtime semantics of a decorated class -/

/-- A Python runtime error, as far as the model distinguishes them:
a `ValidationError` carrying the user validator's own error content, a
`TypeError` (bad call arity / read-only mapping mutation), or an
`AttributeError` (missing generated method). -/
inductive PyErr where
  | validationError (e : String)
  | typeError (msg : String)
  | attributeError (msg : String)
deriving DecidableEq, Repr

/-- The user validation hook registered for an attribute name, if any. -/
def hookFor (c : Cls) (n : String) : Option Hook :=
  match c.hooks.find? (fun kv => kv.1 = n) with
  | some kv => some kv.2
  | none => none

/-- The `__dict__` key under which an attribute is stored: a generated
property named `n` keeps its data in the backing field `_n` (as in the
hand-written setters of `test_readme_old_way`); a plain attribute is stored
under its own name. -/
def storageName (c : Cls) (n : String) : String :=
  if c.propNames.contains n then "_" ++ n else n

/-- `setattr(obj, n, v)`: when `n` is a generated property the setter runs —
it applies the validation hook (raising the hook's own error on rejection)
and stores the value in the backing field; otherwise the value is stored
directly. -/
def setAttr (c : Cls) (attrs : Attrs) (n : String) (v : Value) :
    Except PyErr Attrs :=
  if c.propNames.contains n then
    match hookFor c n with
    | some hook =>
        match hook v with
        | some e => .error (.validationError e)
        | none => .ok (attrs.set ("_" ++ n) v)
    | none => .ok (attrs.set ("_" ++ n) v)
  else
    .ok (attrs.set n v)

/-- `getattr(obj, n)`: read through the generated property when there is
one, else read the plain attribute. -/
def getAttr (c : Cls) (attrs : Attrs) (n : String) : Option Value :=
  attrs.lookup (storageName c n)

/-- The value a constructor parameter takes at a call: the argument passed
for it, or its declared default when omitted. -/
def resolveArg (args : Attrs) (p : Param) : Option Value :=
  match args.lookup p.name with
  | some v => some v
  | none => p.dflt

/-- The autoargs mirroring pass: for each constructor parameter passing the
decorator's include/exclude filter, assign its resolved value to the
identically named instance attribute (through `setAttr`, hence through any
generated property setter). -/
def mirrorArgs (c : Cls) (incl excl : Option (List String)) (args : Attrs) :
    List Param → Attrs → Except PyErr Attrs
  | [], attrs => .ok attrs
  | p :: ps, attrs =>
      if filterAccepts incl excl p.name then
        match resolveArg args p with
        | none => .error (.typeError ("missing argument " ++ p.name))
        | some v =>
            match setAttr c attrs p.name v with
            | .error e => .error e
            | .ok attrs2 => mirrorArgs c incl excl args ps attrs2
      else
        mirrorArgs c incl excl args ps attrs

/-- The value of a parameter name inside the constructor body. -/
def paramValue (c : Cls) (args : Attrs) (pn : String) : Option Value :=
  match c.ctor.params.find? (fun p => p.name = pn) with
  | some p => resolveArg args p
  | none => none

/-- Execute the constructor body: each statement assigns a parameter's value
or a constant to an instance attribute, through `setAttr`. -/
def runBody (c : Cls) (args : Attrs) :
    List Stmt → Attrs → Except PyErr Attrs
  | [], attrs => .ok attrs
  | .assignConst n v :: rest, attrs =>
      match setAttr c attrs n v with
      | .error e => .error e
      | .ok attrs2 => runBody c args rest attrs2
  | .assignParam n pn :: rest, attrs =>
      match paramValue c args pn with
      | none => .error (.typeError ("unknown name " ++ pn))
      | some v =>
          match setAttr c attrs n v with
          | .error e => .error e
          | .ok attrs2 => runBody c args rest attrs2

/-- A constructor call `cls(**args)`: Python first checks the call binds —
every parameter resolves to a value and no unexpected keyword is passed —
then the autoargs mirroring pass runs (when installed), then the original
body. The result is the instance's `__dict__`, or the raised error. -/
def runInit (c : Cls) (args : Attrs) : Except PyErr Attrs :=
  if (c.ctor.params.all fun p => (resolveArg args p).isSome) &&
     (args.keys.all fun k => (paramNames c).contains k) then
    match
      (if c.ctor.mirrored then
        mirrorArgs c c.ctor.mIncl c.ctor.mExcl args c.ctor.params []
      else .ok []) with
    | .error e => .error e
    | .ok attrs1 => runBody c args c.ctor.body attrs1
  else
    .error (.typeError "bad call arguments")

/-! ## The autodict mapping view -/

/-- Whether an attribute name is public (not underscore-prefixed). -/
def isPublicName (n : String) : Bool := !n.startsWith "_"

/-- The key/value view over the constructor-argument names: one entry per
parameter name passing the filter, with the attribute's current value read
through `getAttr`. -/
def ctorArgsView (c : Cls) (attrs : Attrs) : List String → Attrs
  | [] => []
  | n :: ns =>
      if filterAccepts c.dictIncl c.dictExcl n then
        match getAttr c attrs n with
        | some v => (n, v) :: ctorArgsView c attrs ns
        | none => ctorArgsView c attrs ns
      else
        ctorArgsView c attrs ns

/-- Modelled from the spec: the mapping view generated by `autodict`.
With `only_constructor_args` (the default) it exposes the attributes named
by the constructor parameters; otherwise it exposes all of `vars(obj)`,
restricted to public names unless `only_public_fields` is `False`, always
intersected with the include/exclude filter. -/
def dictView (c : Cls) (attrs : Attrs) : Attrs :=
  if c.dictOnlyCtor then
    ctorArgsView c attrs (paramNames c)
  else
    attrs.filter fun kv =>
      filterAccepts c.dictIncl c.dictExcl kv.1 &&
      (!c.dictOnlyPublic || isPublicName kv.1)

/-- Modelled from the spec: `autodict` equips instances with mapping
equality — an instance compares equal to a dictionary exactly when its
key/value view does. -/
def eqDict (c : Cls) (attrs : Attrs) (d : Attrs) : Bool :=
  Attrs.mapEqB (dictView c attrs) d

/-- Modelled from the spec: the mapping view generated by `autodict` is
read-only — item assignment on the view raises a `TypeError` and never
produces a modified attribute dictionary. -/
def dictViewSetItem (c : Cls) (attrs : Attrs) (k : String) (v : Value) :
    Except PyErr Attrs :=
  .error (.typeError "object does not support item assignment")

/-- Modelled from the spec: item deletion on the read-only view likewise
raises a `TypeError` and never modifies the attributes. -/
def dictViewDelItem (c : Cls) (attrs : Attrs) (k : String) :
    Except PyErr Attrs :=
  .error (.typeError "object does not support item deletion")

/-- Modelled from the spec: the class-level reverse constructor `from_dict`
generated by `autodict` builds an instance from a mapping by calling the
class's constructor with the mapping as keyword arguments. -/
def from_dict (c : Cls) (d : Attrs) : Except PyErr Attrs :=
  if c.hasDict then runInit c d
  else .error (.attributeError "from_dict")

/-! ## Laws of the attribute dictionary -/

namespace Attrs

theorem lookup_set_self (a : Attrs) (n : String) (v : Value) :
    (a.set n v).lookup n = some v := by
  induction a with
  | nil => simp [set, lookup]
  | cons kv rest ih =>
      by_cases h : kv.1 = n
      · simp [set, lookup, h]
      · simp [set, lookup, h, ih]

theorem keys_cons (kv : String × Value) (rest : Attrs) :
    keys (kv :: rest) = kv.1 :: keys rest := rfl

theorem lookup_set_ne (a : Attrs) {n k : String} (v : Value) (h : k ≠ n) :
    (a.set n v).lookup k = a.lookup k := by
  induction a with
  | nil => simp [set, lookup, h, Ne.symm h]
  | cons kv rest ih =>
      by_cases hk : kv.1 = n
      · simp [set, lookup, hk, h, Ne.symm h]
      · by_cases hk2 : kv.1 = k <;>
          simp [set, lookup, hk, hk2, ih, h, Ne.symm h]

theorem lookup_eq_none_of_not_mem {a : Attrs} {n : String}
    (h : n ∉ a.keys) : a.lookup n = none := by
  induction a with
  | nil => rfl
  | cons kv rest ih =>
      rw [keys_cons] at h
      have h1 : ¬kv.1 = n := fun hh => h (by rw [hh]; exact List.mem_cons_self _ _)
      have h2 : n ∉ keys rest := fun hh => h (List.mem_cons_of_mem _ hh)
      simp [lookup, h1, ih h2]

theorem mem_keys_of_lookup_isSome {a : Attrs} {n : String}
    (h : (a.lookup n).isSome) : n ∈ a.keys := by
  induction a with
  | nil => simp [lookup] at h
  | cons kv rest ih =>
      by_cases hk : kv.1 = n
      · rw [keys_cons, hk]; exact List.mem_cons_self _ _
      · simp [lookup, hk] at h
        rw [keys_cons]
        exact List.mem_cons_of_mem _ (ih h)

theorem lookup_isSome_of_mem_keys {a : Attrs} {n : String}
    (h : n ∈ a.keys) : (a.lookup n).isSome := by
  induction a with
  | nil => simp [keys] at h
  | cons kv rest ih =>
      by_cases hk : kv.1 = n
      · simp [lookup, hk]
      · rw [keys_cons] at h
        rcases List.mem_cons.mp h with h | h
        · exact absurd h.symm hk
        · simp [lookup, hk, ih h]

theorem mem_keys_set {a : Attrs} {n k : String} {v : Value}
    (h : k ∈ (a.set n v).keys) : k ∈ a.keys ∨ k = n := by
  induction a with
  | nil =>
      simp [set, keys] at h
      exact Or.inr h
  | cons kv rest ih =>
      by_cases hk : kv.1 = n
      · rw [show set (kv :: rest) n v = (n, v) :: rest by simp [set, hk],
          keys_cons] at h
        rcases List.mem_cons.mp h with h | h
        · exact Or.inr h
        · exact Or.inl (by rw [keys_cons]; exact List.mem_cons_of_mem _ h)
      · rw [show set (kv :: rest) n v = kv :: set rest n v by simp [set, hk],
          keys_cons] at h
        rcases List.mem_cons.mp h with h | h
        · exact Or.inl (by rw [keys_cons, h]; exact List.mem_cons_self _ _)
        · rcases ih h with h2 | h2
          · exact Or.inl (by rw [keys_cons]; exact List.mem_cons_of_mem _ h2)
          · exact Or.inr h2

theorem mapEqB_refl (a : Attrs) : mapEqB a a = true := by
  simp [mapEqB, List.all_eq_true]

end Attrs

/-! ## Laws of attribute assignment -/

theorem setAttr_ok_lookup_self {c : Cls} {a : Attrs} {n : String} {v : Value}
    {a2 : Attrs} (h : setAttr c a n v = .ok a2) :
    a2.lookup (storageName c n) = some v := by
  unfold setAttr at h
  unfold storageName
  by_cases hp : c.propNames.contains n
  · rw [if_pos hp] at h
    rw [if_pos hp]
    cases hh : hookFor c n with
    | none =>
        simp only [hh] at h
        simp at h
        rw [← h]
        exact Attrs.lookup_set_self a _ v
    | some hook =>
        simp only [hh] at h
        cases hv : hook v with
        | some e => simp only [hv] at h; simp at h
        | none =>
            simp only [hv] at h
            simp at h
            rw [← h]
            exact Attrs.lookup_set_self a _ v
  · rw [if_neg hp] at h
    rw [if_neg hp]
    simp at h
    rw [← h]
    exact Attrs.lookup_set_self a _ v

theorem setAttr_ok_lookup_ne {c : Cls} {a : Attrs} {n : String} {v : Value}
    {a2 : Attrs} {k : String} (h : setAttr c a n v = .ok a2)
    (hk : storageName c n ≠ k) : a2.lookup k = a.lookup k := by
  unfold setAttr at h
  unfold storageName at hk
  by_cases hp : c.propNames.contains n
  · rw [if_pos hp] at h
    rw [if_pos hp] at hk
    cases hh : hookFor c n with
    | none =>
        simp only [hh] at h
        simp at h
        rw [← h]
        exact Attrs.lookup_set_ne a v (Ne.symm hk)
    | some hook =>
        simp only [hh] at h
        cases hv : hook v with
        | some e => simp only [hv] at h; simp at h
        | none =>
            simp only [hv] at h
            simp at h
            rw [← h]
            exact Attrs.lookup_set_ne a v (Ne.symm hk)
  · rw [if_neg hp] at h
    rw [if_neg hp] at hk
    simp at h
    rw [← h]
    exact Attrs.lookup_set_ne a v (Ne.symm hk)

theorem setAttr_ok_mem_keys {c : Cls} {a : Attrs} {n : String} {v : Value}
    {a2 : Attrs} {k : String} (h : setAttr c a n v = .ok a2)
    (hk : k ∈ a2.keys) : k ∈ a.keys ∨ k = storageName c n := by
  unfold setAttr at h
  unfold storageName
  by_cases hp : c.propNames.contains n
  · rw [if_pos hp] at h
    rw [if_pos hp]
    cases hh : hookFor c n with
    | none =>
        simp only [hh] at h
        simp at h
        rw [← h] at hk
        exact Attrs.mem_keys_set hk
    | some hook =>
        simp only [hh] at h
        cases hv : hook v with
        | some e => simp only [hv] at h; simp at h
        | none =>
            simp only [hv] at h
            simp at h
            rw [← h] at hk
            exact Attrs.mem_keys_set hk
  · rw [if_neg hp] at h
    rw [if_neg hp]
    simp at h
    rw [← h] at hk
    exact Attrs.mem_keys_set hk

theorem setAttr_ok_of_no_prop {c : Cls} (a : Attrs) {n : String} (v : Value)
    (hp : c.propNames.contains n = false) :
    setAttr c a n v = .ok (a.set n v) := by
  unfold setAttr
  rw [if_neg fun hc => by rw [hc] at hp; exact Bool.noConfusion hp]

theorem setAttr_error_of_hook_reject {c : Cls} (a : Attrs) {n : String}
    {v : Value} {hook : Hook} {e : String}
    (hp : c.propNames.contains n = true) (hh : hookFor c n = some hook)
    (hv : hook v = some e) :
    setAttr c a n v = .error (.validationError e) := by
  unfold setAttr
  rw [if_pos hp]
  simp only [hh, hv]

theorem setAttr_ok_of_hook_accept {c : Cls} (a : Attrs) {n : String}
    {v : Value} {hook : Hook}
    (hp : c.propNames.contains n = true) (hh : hookFor c n = some hook)
    (hv : hook v = none) :
    setAttr c a n v = .ok (a.set ("_" ++ n) v) := by
  unfold setAttr
  rw [if_pos hp]
  simp only [hh, hv]

/-! ## Laws of the autoargs mirroring pass -/

theorem mirrorArgs_preserve {c : Cls} {incl excl : Option (List String)}
    {args : Attrs} {ps : List Param} {a0 a : Attrs} {k : String}
    (h : mirrorArgs c incl excl args ps a0 = .ok a)
    (hk : ∀ p ∈ ps, storageName c p.name ≠ k) :
    a.lookup k = a0.lookup k := by
  induction ps generalizing a0 with
  | nil => simp [mirrorArgs] at h; rw [h]
  | cons p ps ih =>
      unfold mirrorArgs at h
      by_cases hacc : filterAccepts incl excl p.name
      · rw [if_pos hacc] at h
        cases hres : resolveArg args p with
        | none => simp only [hres] at h; simp at h
        | some v =>
            simp only [hres] at h
            cases hset : setAttr c a0 p.name v with
            | error e => simp only [hset] at h; simp at h
            | ok a1 =>
                simp only [hset] at h
                have step := ih h (fun q hq => hk q (List.mem_cons_of_mem _ hq))
                rw [step]
                exact setAttr_ok_lookup_ne hset (hk p (List.mem_cons_self _ _))
      · rw [if_neg hacc] at h
        exact ih h (fun q hq => hk q (List.mem_cons_of_mem _ hq))

theorem mirrorArgs_lookup {c : Cls} {incl excl : Option (List String)}
    {args : Attrs} {ps : List Param} {a0 a : Attrs} {p : Param} {v : Value}
    (hnd : (ps.map fun q => storageName c q.name).Nodup)
    (hmem : p ∈ ps)
    (hacc : filterAccepts incl excl p.name = true)
    (hres : resolveArg args p = some v)
    (h : mirrorArgs c incl excl args ps a0 = .ok a) :
    a.lookup (storageName c p.name) = some v := by
  induction ps generalizing a0 with
  | nil => exact absurd hmem (List.not_mem_nil p)
  | cons q ps ih =>
      rcases List.mem_cons.mp hmem with hqp | htail
      · subst hqp
        unfold mirrorArgs at h
        rw [if_pos hacc] at h
        simp only [hres] at h
        cases hset : setAttr c a0 p.name v with
        | error e => simp only [hset] at h; simp at h
        | ok a1 =>
            simp only [hset] at h
            have hnotin : ∀ r ∈ ps, storageName c r.name ≠ storageName c p.name := by
              intro r hr heq
              have hmm : storageName c r.name ∈
                  List.map (fun q => storageName c q.name) ps :=
                List.mem_map_of_mem _ hr
              rw [heq] at hmm
              exact (List.nodup_cons.mp hnd).1 hmm
            rw [mirrorArgs_preserve h hnotin]
            exact setAttr_ok_lookup_self hset
      · unfold mirrorArgs at h
        by_cases haccq : filterAccepts incl excl q.name
        · rw [if_pos haccq] at h
          cases hresq : resolveArg args q with
          | none => simp only [hresq] at h; simp at h
          | some w =>
              simp only [hresq] at h
              cases hset : setAttr c a0 q.name w with
              | error e => simp only [hset] at h; simp at h
              | ok a1 => simp only [hset] at h; exact ih (List.nodup_cons.mp hnd).2 htail h
        · rw [if_neg haccq] at h
          exact ih (List.nodup_cons.mp hnd).2 htail h

theorem mirrorArgs_ok_of_no_props {c : Cls} {incl excl : Option (List String)}
    {args : Attrs} {ps : List Param} (a0 : Attrs)
    (hp : ∀ p ∈ ps, c.propNames.contains p.name = false)
    (hres : ∀ p ∈ ps, (resolveArg args p).isSome) :
    ∃ a, mirrorArgs c incl excl args ps a0 = .ok a := by
  induction ps generalizing a0 with
  | nil => exact ⟨a0, rfl⟩
  | cons p ps ih =>
      unfold mirrorArgs
      by_cases hacc : filterAccepts incl excl p.name
      · rw [if_pos hacc]
        cases hr : resolveArg args p with
        | none =>
            have := hres p (List.mem_cons_self _ _)
            rw [hr] at this
            simp at this
        | some v =>
            simp only [hr, setAttr_ok_of_no_prop a0 v (hp p (List.mem_cons_self _ _))]
            exact ih _ (fun q hq => hp q (List.mem_cons_of_mem _ hq))
              (fun q hq => hres q (List.mem_cons_of_mem _ hq))
      · rw [if_neg hacc]
        exact ih _ (fun q hq => hp q (List.mem_cons_of_mem _ hq))
          (fun q hq => hres q (List.mem_cons_of_mem _ hq))

theorem mirrorArgs_keys {c : Cls} {incl excl : Option (List String)}
    {args : Attrs} {ps : List Param} {a0 a : Attrs}
    (h : mirrorArgs c incl excl args ps a0 = .ok a)
    {k : String} (hk : k ∈ a.keys) :
    k ∈ a0.keys ∨ ∃ p ∈ ps, storageName c p.name = k := by
  induction ps generalizing a0 with
  | nil =>
      simp [mirrorArgs] at h
      exact Or.inl (by rw [h]; exact hk)
  | cons p ps ih =>
      unfold mirrorArgs at h
      by_cases hacc : filterAccepts incl excl p.name
      · rw [if_pos hacc] at h
        cases hres : resolveArg args p with
        | none => simp only [hres] at h; simp at h
        | some v =>
            simp only [hres] at h
            cases hset : setAttr c a0 p.name v with
            | error e => simp only [hset] at h; simp at h
            | ok a1 =>
                simp only [hset] at h
                rcases ih h with h1 | ⟨q, hq, hqk⟩
                · rcases setAttr_ok_mem_keys hset h1 with h2 | h2
                  · exact Or.inl h2
                  · exact Or.inr ⟨p, List.mem_cons_self _ _, h2.symm⟩
                · exact Or.inr ⟨q, List.mem_cons_of_mem _ hq, hqk⟩
      · rw [if_neg hacc] at h
        rcases ih h with h1 | ⟨q, hq, hqk⟩
        · exact Or.inl h1
        · exact Or.inr ⟨q, List.mem_cons_of_mem _ hq, hqk⟩

theorem mirrorArgs_append {c : Cls} {incl excl : Option (List String)}
    {args : Attrs} (xs ys : List Param) (a0 : Attrs) :
    mirrorArgs c incl excl args (xs ++ ys) a0 =
      match mirrorArgs c incl excl args xs a0 with
      | .ok a1 => mirrorArgs c incl excl args ys a1
      | .error e => .error e := by
  induction xs generalizing a0 with
  | nil => simp [mirrorArgs]
  | cons p xs ih =>
      by_cases hacc : filterAccepts incl excl p.name
      · cases hres : resolveArg args p with
        | none =>
            simp [List.cons_append, mirrorArgs, hacc, hres]
        | some v =>
            cases hset : setAttr c a0 p.name v with
            | error e =>
                simp [List.cons_append, mirrorArgs, hacc, hres, hset]
            | ok a1 =>
                simp [List.cons_append, mirrorArgs, hacc, hres, hset]
                exact ih a1
      · simp [List.cons_append, mirrorArgs, hacc]
        exact ih a0

/-! ## Laws of the constructor body -/

theorem runBody_preserve {c : Cls} {args : Attrs} {stmts : List Stmt}
    {a0 a : Attrs} {k : String}
    (h : runBody c args stmts a0 = .ok a)
    (hk : ∀ s ∈ stmts, storageName c s.target ≠ k) :
    a.lookup k = a0.lookup k := by
  induction stmts generalizing a0 with
  | nil => simp [runBody] at h; rw [h]
  | cons s rest ih =>
      cases s with
      | assignConst n v =>
          unfold runBody at h
          cases hset : setAttr c a0 n v with
          | error e => rw [hset] at h; simp at h
          | ok a1 =>
              rw [hset] at h
              rw [ih h (fun t ht => hk t (List.mem_cons_of_mem _ ht))]
              exact setAttr_ok_lookup_ne hset (hk _ (List.mem_cons_self _ _))
      | assignParam n pn =>
          unfold runBody at h
          cases hpv : paramValue c args pn with
          | none => simp only [hpv] at h; simp at h
          | some v =>
              simp only [hpv] at h
              cases hset : setAttr c a0 n v with
              | error e => simp only [hset] at h; simp at h
              | ok a1 =>
                  simp only [hset] at h
                  rw [ih h (fun t ht => hk t (List.mem_cons_of_mem _ ht))]
                  exact setAttr_ok_lookup_ne hset (hk _ (List.mem_cons_self _ _))

/-! ## Laws of a constructor call and of the mapping view -/

theorem runInit_ok_inversion {c : Cls} {args attrs : Attrs}
    (h : runInit c args = .ok attrs) :
    ∃ a1,
      (if c.ctor.mirrored then
        mirrorArgs c c.ctor.mIncl c.ctor.mExcl args c.ctor.params []
      else .ok []) = .ok a1 ∧
      runBody c args c.ctor.body a1 = .ok attrs := by
  unfold runInit at h
  by_cases hc :
      ((c.ctor.params.all fun p => (resolveArg args p).isSome) &&
        (args.keys.all fun k => (paramNames c).contains k)) = true
  · rw [if_pos hc] at h
    cases hm :
        (if c.ctor.mirrored then
          mirrorArgs c c.ctor.mIncl c.ctor.mExcl args c.ctor.params []
        else .ok []) with
    | error e => rw [hm] at h; simp at h
    | ok a1 =>
        rw [hm] at h
        exact ⟨a1, rfl, h⟩
  · rw [if_neg hc] at h
    simp at h

theorem ctorArgsView_keys_subset {c : Cls} {attrs : Attrs}
    {names : List String} {k : String}
    (h : k ∈ (ctorArgsView c attrs names).keys) : k ∈ names := by
  induction names with
  | nil => simp [ctorArgsView, Attrs.keys] at h
  | cons n ns ih =>
      unfold ctorArgsView at h
      by_cases hacc : filterAccepts c.dictIncl c.dictExcl n
      · rw [if_pos hacc] at h
        cases hg : getAttr c attrs n with
        | none =>
            rw [hg] at h
            exact List.mem_cons_of_mem _ (ih h)
        | some v =>
            rw [hg] at h
            rw [Attrs.keys_cons] at h
            rcases List.mem_cons.mp h with h | h
            · rw [h]; exact List.mem_cons_self _ _
            · exact List.mem_cons_of_mem _ (ih h)
      · rw [if_neg hacc] at h
        exact List.mem_cons_of_mem _ (ih h)

theorem ctorArgsView_lookup_of_not_mem {c : Cls} {attrs : Attrs}
    {names : List String} {n : String} (h : n ∉ names) :
    (ctorArgsView c attrs names).lookup n = none :=
  Attrs.lookup_eq_none_of_not_mem fun hk => h (ctorArgsView_keys_subset hk)

theorem ctorArgsView_lookup_mem {c : Cls} {attrs : Attrs}
    {names : List String} {n : String} {v : Value}
    (hnd : names.Nodup) (hmem : n ∈ names)
    (hacc : filterAccepts c.dictIncl c.dictExcl n = true)
    (hval : getAttr c attrs n = some v) :
    (ctorArgsView c attrs names).lookup n = some v := by
  induction names with
  | nil => exact absurd hmem (List.not_mem_nil n)
  | cons m ns ih =>
      rcases List.mem_cons.mp hmem with hnm | htail
      · subst hnm
        unfold ctorArgsView
        rw [if_pos hacc, hval]
        simp [Attrs.lookup]
      · have hne : m ≠ n := by
          intro hmn
          exact (List.nodup_cons.mp hnd).1 (hmn ▸ htail)
        unfold ctorArgsView
        by_cases haccm : filterAccepts c.dictIncl c.dictExcl m
        · rw [if_pos haccm]
          cases hg : getAttr c attrs m with
          | none => exact ih (List.nodup_cons.mp hnd).2 htail
          | some w =>
              simp [Attrs.lookup, hne]
              exact ih (List.nodup_cons.mp hnd).2 htail
        · rw [if_neg haccm]
          exact ih (List.nodup_cons.mp hnd).2 htail

theorem exists_param_of_mem_paramNames {c : Cls} {n : String}
    (h : n ∈ paramNames c) : ∃ p, p ∈ c.ctor.params ∧ p.name = n := by
  unfold paramNames at h
  rcases List.mem_map.mp h with ⟨p, hp, hn⟩
  exact ⟨p, hp, hn⟩

theorem resolveArg_of_lookup_some {args : Attrs} {p : Param} {v : Value}
    (h : args.lookup p.name = some v) : resolveArg args p = some v := by
  unfold resolveArg
  rw [h]

/-! ## Concrete classes from the documentation tests -/

/-- The validator `minlens(0)` of `test_readme_usage_autoprops_validate`:
a string must be non-empty. -/
def minlens0 : Hook := fun v =>
  match v with
  | .vStr s => if s.length > 0 then none else some "length should be > 0"
  | _ => some "not a string"

/-- `FooConfigA` of `test_readme_usage_autoprops_validate`: one parameter
`a`, `@autoargs`, `@autoprops`, and `@validate(a=minlens(0))`. -/
def fooConfigA : Cls where
  ctor := { params := [⟨"a", none⟩], body := [], mirrored := true,
            mIncl := none, mExcl := none }
  propNames := ["a"]
  hooks := [("a", minlens0)]
  hasDict := false
  dictIncl := none
  dictExcl := none
  dictOnlyCtor := true
  dictOnlyPublic := true

/-- Class `A` of `test_readme_usage_autodict_1`: `@autodict` without
`@autoargs`, the body copies both parameters by hand. -/
def clsA : Cls where
  ctor := { params := [⟨"a", none⟩, ⟨"b", none⟩],
            body := [.assignParam "a" "a", .assignParam "b" "b"],
            mirrored := false, mIncl := none, mExcl := none }
  propNames := []
  hooks := []
  hasDict := true
  dictIncl := none
  dictExcl := none
  dictOnlyCtor := true
  dictOnlyPublic := true

/-- Class `B` of `test_readme_usage_autodict_1`: `@autodict` with
`@autoargs`. -/
def clsB : Cls where
  ctor := { params := [⟨"a", none⟩, ⟨"b", none⟩], body := [],
            mirrored := true, mIncl := none, mExcl := none }
  propNames := []
  hooks := []
  hasDict := true
  dictIncl := none
  dictExcl := none
  dictOnlyCtor := true
  dictOnlyPublic := true

/-- Class `C` of `test_readme_usage_autodict_2`: extra non-constructor,
private and class-private attributes set in the body. -/
def clsC : Cls where
  ctor := { params := [⟨"a", none⟩, ⟨"b", none⟩],
            body := [.assignConst "non_constructor_arg" (.vStr "t"),
                     .assignConst "_private" (.vInt 1),
                     .assignConst "_C__class_private" (.vStr "t")],
            mirrored := true, mIncl := none, mExcl := none }
  propNames := []
  hooks := []
  hasDict := true
  dictIncl := none
  dictExcl := none
  dictOnlyCtor := true
  dictOnlyPublic := true

/-- Class `D` of `test_readme_usage_autodict_3`:
`@autodict(only_constructor_args=False, only_public_fields=False)`. -/
def clsD : Cls where
  ctor := { params := [⟨"a", none⟩, ⟨"b", none⟩],
            body := [.assignConst "non_constructor_arg" (.vStr "b"),
                     .assignConst "_private" (.vInt 1),
                     .assignConst "_D__class_private" (.vStr "t")],
            mirrored := true, mIncl := none, mExcl := none }
  propNames := []
  hooks := []
  hasDict := true
  dictIncl := none
  dictExcl := none
  dictOnlyCtor := false
  dictOnlyPublic := false

/-- `HouseConfiguration` of `test_readme_enforce_validate`, restricted to
the two validated parameters: `@autoargs`, `@autoprops` and
`@validate(name=minlens(0), ...)`. -/
def houseConfiguration : Cls where
  ctor := { params := [⟨"name", none⟩, ⟨"surface", none⟩], body := [],
            mirrored := true, mIncl := none, mExcl := none }
  propNames := ["name", "surface"]
  hooks := [("name", minlens0)]
  hasDict := false
  dictIncl := none
  dictExcl := none
  dictOnlyCtor := true
  dictOnlyPublic := true

/-! ## The claims -/

/-- C1: for a class whose constructor is decorated with autoargs, every
constructor parameter that passes the include/exclude filter is copied onto
the identically named instance attribute; after a successful construction
the attribute's value equals the argument passed, or the parameter's
default value when the argument was omitted (both cases are `resolveArg`). -/
theorem C1_autoargs_mirrors_arguments
    {c : Cls} {args attrs : Attrs} {p : Param} {v : Value}
    (hmir : c.ctor.mirrored = true)
    (hnd : (c.ctor.params.map fun q => storageName c q.name).Nodup)
    (hmem : p ∈ c.ctor.params)
    (hacc : filterAccepts c.ctor.mIncl c.ctor.mExcl p.name = true)
    (hres : resolveArg args p = some v)
    (hbody : ∀ s ∈ c.ctor.body, storageName c s.target ≠ storageName c p.name)
    (hrun : runInit c args = .ok attrs) :
    getAttr c attrs p.name = some v := by
  rcases runInit_ok_inversion hrun with ⟨a1, hm, hb⟩
  rw [if_pos hmir] at hm
  unfold getAttr
  rw [runBody_preserve hb hbody]
  exact mirrorArgs_lookup hnd hmem hacc hres hm

/-- Witness for C1: `FooConfigA('rhubarb')` ends with `t.a == 'rhubarb'`. -/
theorem C1_witness :
    runInit fooConfigA [("a", Value.vStr "rhubarb")] =
      .ok [("_a", Value.vStr "rhubarb")] ∧
    getAttr fooConfigA [("_a", Value.vStr "rhubarb")] "a" =
      some (Value.vStr "rhubarb") :=
  ⟨rfl,
   @C1_autoargs_mirrors_arguments fooConfigA [("a", Value.vStr "rhubarb")]
     [("_a", Value.vStr "rhubarb")] ⟨"a", none⟩ (Value.vStr "rhubarb")
     rfl (by decide) (by decide) (by decide) rfl
     (fun s hs => absurd hs (List.not_mem_nil s)) rfl⟩

/-- C4: autoprops generates a property (paired getter and setter) for every
constructor parameter selected by the include/exclude filter, and for every
value accepted by the optional validation hook, assigning the value through
the generated setter and reading through the generated getter returns that
same value. -/
theorem C4_autoprops_set_get_round_trip
    {c0 : Cls} {incl excl : Option (List String)} {n : String} {v : Value}
    (hmem : n ∈ c0.ctor.params.map Param.name)
    (hacc : filterAccepts incl excl n = true)
    (hval : ∀ hook, hookFor c0 n = some hook → hook v = none) :
    n ∈ (autoprops_decorate c0 incl excl).propNames ∧
    ∀ attrs, ∃ attrs2,
      setAttr (autoprops_decorate c0 incl excl) attrs n v = .ok attrs2 ∧
      getAttr (autoprops_decorate c0 incl excl) attrs2 n = some v := by
  have hmem2 : n ∈ (autoprops_decorate c0 incl excl).propNames := by
    unfold autoprops_decorate
    exact List.mem_filter.mpr ⟨hmem, hacc⟩
  refine ⟨hmem2, fun attrs => ?_⟩
  have hcont : (autoprops_decorate c0 incl excl).propNames.contains n = true :=
    List.elem_eq_true_of_mem hmem2
  have hookeq : hookFor (autoprops_decorate c0 incl excl) n = hookFor c0 n := rfl
  have hget : getAttr (autoprops_decorate c0 incl excl)
      (attrs.set ("_" ++ n) v) n = some v := by
    unfold getAttr storageName
    rw [if_pos hcont]
    exact Attrs.lookup_set_self attrs _ v
  cases hh : hookFor c0 n with
  | none =>
      refine ⟨attrs.set ("_" ++ n) v, ?_, hget⟩
      unfold setAttr
      rw [if_pos hcont, hookeq, hh]
  | some hook =>
      exact ⟨attrs.set ("_" ++ n) v,
        setAttr_ok_of_hook_accept attrs hcont (hookeq ▸ hh) (hval hook hh),
        hget⟩

/-- Witness for C4: the generated property of `FooConfigA` round-trips the
accepted value `'r'`. -/
theorem C4_witness :
    "a" ∈ (autoprops_decorate fooConfigA none none).propNames ∧
    ∃ attrs2,
      setAttr (autoprops_decorate fooConfigA none none) [] "a"
        (Value.vStr "r") = .ok attrs2 ∧
      getAttr (autoprops_decorate fooConfigA none none) attrs2 "a" =
        some (Value.vStr "r") := by
  have h := @C4_autoprops_set_get_round_trip fooConfigA none none "a"
    (Value.vStr "r") (by decide) (by decide)
    (fun hook hh => by cases hh; decide)
  exact ⟨h.1, h.2 []⟩

/-- C5: on an attribute with a user-supplied validation hook, assignment of
a rejected value raises the validator's own error (a pass-through, not a
library-owned error), and assignment of an accepted value succeeds. -/
theorem C5_validation_passthrough
    {c : Cls} {n : String} {hook : Hook}
    (hprop : c.propNames.contains n = true)
    (hhook : hookFor c n = some hook) :
    (∀ attrs v e, hook v = some e →
        setAttr c attrs n v = .error (.validationError e)) ∧
    (∀ attrs v, hook v = none →
        setAttr c attrs n v = .ok (attrs.set ("_" ++ n) v)) :=
  ⟨fun attrs v e hv => setAttr_error_of_hook_reject attrs hprop hhook hv,
   fun attrs v hv => setAttr_ok_of_hook_accept attrs hprop hhook hv⟩

/-- Witness for C5: `t.a = ''` raises the `minlens(0)` validation error and
`t.a = 'r'` succeeds, as in `test_readme_usage_autoprops_validate`. -/
theorem C5_witness :
    setAttr fooConfigA [("_a", Value.vStr "rhubarb")] "a" (Value.vStr "") =
      .error (.validationError "length should be > 0") ∧
    setAttr fooConfigA [("_a", Value.vStr "rhubarb")] "a" (Value.vStr "r") =
      .ok [("_a", Value.vStr "r")] := by
  have h := @C5_validation_passthrough fooConfigA "a" minlens0
    (by decide) rfl
  exact ⟨h.1 _ _ _ (by decide), h.2 _ _ (by decide)⟩

/-- The composition described by the spec, stated from its words: apply
autoargs to the class's constructor, then autoprops, then autodict, each
with the same include and exclude arguments; a step whose boolean flag is
`False` is skipped, and no other step is affected. -/
def autoclass_spec (cls : Cls) (incl excl : Option (List String))
    (aa ap ad : Bool) : Cls :=
  let afterArgs :=
    if aa then { cls with ctor := autoargs_decorate cls.ctor incl excl }
    else cls
  let afterProps :=
    if ap then autoprops_decorate afterArgs incl excl else afterArgs
  if ad then autodict_decorate afterProps incl excl true true else afterProps

/-- C6: `autoclass_decorate` with all flags at their default `True` equals
the sequential application of autoargs (on the constructor), autoprops and
autodict with the same include/exclude arguments, and for every flag
setting it coincides with the spec's composition in which a `False` flag
skips exactly that one transformation. -/
theorem C6_autoclass_composition (cls : Cls) (incl excl : Option (List String)) :
    (autoclass_decorate cls incl excl true true true =
      autodict_decorate
        (autoprops_decorate
          { cls with ctor := autoargs_decorate (get_constructor cls) incl excl }
          incl excl)
        incl excl true true) ∧
    (∀ aa ap ad, autoclass_decorate cls incl excl aa ap ad =
      autoclass_spec cls incl excl aa ap ad) := by
  refine ⟨rfl, fun aa ap ad => ?_⟩
  cases aa <;> cases ap <;> cases ad <;> rfl

/-- C7: the generated mapping view is read-only — item assignment and item
deletion on the view raise a `TypeError` and never produce a modified
attribute dictionary. -/
theorem C7_mapping_view_read_only (c : Cls) (attrs : Attrs) (k : String)
    (v : Value) :
    dictViewSetItem c attrs k v =
      .error (.typeError "object does not support item assignment") ∧
    dictViewDelItem c attrs k =
      .error (.typeError "object does not support item deletion") ∧
    (∀ a2, dictViewSetItem c attrs k v ≠ .ok a2) ∧
    (∀ a2, dictViewDelItem c attrs k ≠ .ok a2) := by
  refine ⟨rfl, rfl, fun a2 h => ?_, fun a2 h => ?_⟩ <;>
    simp [dictViewSetItem, dictViewDelItem] at h

/-- Witness for C7: mutating the view of an `A(1, 'r')` instance fails. -/
theorem C7_witness :
    dictViewSetItem clsA [("a", Value.vInt 1), ("b", Value.vStr "r")] "a"
      (Value.vInt 2) =
      .error (.typeError "object does not support item assignment") :=
  (C7_mapping_view_read_only clsA
    [("a", Value.vInt 1), ("b", Value.vStr "r")] "a" (Value.vInt 2)).1

/-- C8: `autoclass_decorate` works in place — with every flag `False` it
returns the class unchanged, a `False` autoargs flag leaves the
constructor untouched, a `False` autoprops flag leaves the properties
untouched, a `False` autodict flag leaves the whole autodict configuration
untouched, and the user's validation hooks are never touched. -/
theorem C8_in_place_decoration (cls : Cls) (incl excl : Option (List String)) :
    (∀ ap ad, (autoclass_decorate cls incl excl false ap ad).ctor = cls.ctor) ∧
    (∀ aa ad,
      (autoclass_decorate cls incl excl aa false ad).propNames =
        cls.propNames) ∧
    (∀ aa ap,
      (autoclass_decorate cls incl excl aa ap false).hasDict = cls.hasDict ∧
      (autoclass_decorate cls incl excl aa ap false).dictIncl = cls.dictIncl ∧
      (autoclass_decorate cls incl excl aa ap false).dictExcl = cls.dictExcl ∧
      (autoclass_decorate cls incl excl aa ap false).dictOnlyCtor =
        cls.dictOnlyCtor ∧
      (autoclass_decorate cls incl excl aa ap false).dictOnlyPublic =
        cls.dictOnlyPublic) ∧
    (∀ aa ap ad, (autoclass_decorate cls incl excl aa ap ad).hooks = cls.hooks) ∧
    autoclass_decorate cls incl excl false false false = cls := by
  refine ⟨fun ap ad => ?_, fun aa ad => ?_, fun aa ap => ?_,
    fun aa ap ad => ?_, rfl⟩
  · cases ap <;> cases ad <;> rfl
  · cases aa <;> cases ad <;> rfl
  · cases aa <;> cases ap <;> exact ⟨rfl, rfl, rfl, rfl, rfl⟩
  · cases aa <;> cases ap <;> cases ad <;> rfl

/-- C2: an instance of an autodict-decorated class compares equal to the
dictionary built from its own key/value view, and that dictionary maps
each exposed attribute name to the attribute's current value. -/
theorem C2_autodict_mapping_view
    {c : Cls} {attrs : Attrs} {n : String} {v : Value}
    (hdict : c.hasDict = true)
    (hctor : c.dictOnlyCtor = true)
    (hnd : (paramNames c).Nodup)
    (hmem : n ∈ paramNames c)
    (hacc : filterAccepts c.dictIncl c.dictExcl n = true)
    (hval : getAttr c attrs n = some v) :
    eqDict c attrs (dictView c attrs) = true ∧
    (dictView c attrs).lookup n = some v := by
  constructor
  · unfold eqDict
    exact Attrs.mapEqB_refl _
  · unfold dictView
    rw [if_pos hctor]
    exact ctorArgsView_lookup_mem hnd hmem hacc hval

/-- Witness for C2: `A(1, 'r') == dict(o)` and the view maps `'a'` to `1`. -/
theorem C2_witness :
    eqDict clsA [("a", Value.vInt 1), ("b", Value.vStr "r")]
      (dictView clsA [("a", Value.vInt 1), ("b", Value.vStr "r")]) = true ∧
    (dictView clsA [("a", Value.vInt 1), ("b", Value.vStr "r")]).lookup "a" =
      some (Value.vInt 1) :=
  C2_autodict_mapping_view (c := clsA) rfl rfl (by decide) (by decide)
    (by decide) rfl

/-- C9: with the default autodict options the mapping view hides every
attribute not named by a constructor parameter (non-constructor attributes
and private attributes alike), and with `only_constructor_args=False`,
`only_public_fields=False` and no include/exclude filter the view is all
of `vars(obj)` as stored — class-private names under their mangled form. -/
theorem C9_default_view_subset (c : Cls) (attrs : Attrs) :
    (c.dictOnlyCtor = true → ∀ n, n ∉ paramNames c →
      (dictView c attrs).lookup n = none) ∧
    (c.dictOnlyCtor = false → c.dictOnlyPublic = false →
     c.dictIncl = none → c.dictExcl = none →
      dictView c attrs = attrs) := by
  constructor
  · intro hctor n hn
    unfold dictView
    rw [if_pos hctor]
    exact ctorArgsView_lookup_of_not_mem hn
  · intro h1 h2 h3 h4
    unfold dictView
    rw [if_neg fun hc => by rw [h1] at hc; exact Bool.noConfusion hc]
    rw [h2, h3, h4]
    apply List.filter_eq_self.mpr
    intro kv _
    simp [filterAccepts]

/-- Witness for C9: class `C` hides `non_constructor_arg` and `_private`;
class `D` with both options off exposes everything, the class-private
attribute under its mangled name `_D__class_private`. -/
theorem C9_witness :
    (dictView clsC [("a", Value.vInt 1), ("b", Value.vStr "r"),
        ("non_constructor_arg", Value.vStr "t"), ("_private", Value.vInt 1),
        ("_C__class_private", Value.vStr "t")]).lookup "non_constructor_arg" =
      none ∧
    (dictView clsC [("a", Value.vInt 1), ("b", Value.vStr "r"),
        ("non_constructor_arg", Value.vStr "t"), ("_private", Value.vInt 1),
        ("_C__class_private", Value.vStr "t")]).lookup "_private" = none ∧
    dictView clsD [("a", Value.vInt 1), ("b", Value.vStr "r"),
        ("non_constructor_arg", Value.vStr "b"), ("_private", Value.vInt 1),
        ("_D__class_private", Value.vStr "t")] =
      [("a", Value.vInt 1), ("b", Value.vStr "r"),
       ("non_constructor_arg", Value.vStr "b"), ("_private", Value.vInt 1),
       ("_D__class_private", Value.vStr "t")] :=
  ⟨(C9_default_view_subset clsC _).1 rfl "non_constructor_arg" (by decide),
   (C9_default_view_subset clsC _).1 rfl "_private" (by decide),
   (C9_default_view_subset clsD _).2 rfl rfl rfl rfl⟩

/-- C3: for a mapping whose keys are exactly the constructor parameter
names of an autodict-decorated class that mirrors all of its constructor
arguments, `from_dict` produces an instance whose attributes equal the
mapping, and the mapping view of that instance gives the mapping back. -/
theorem C3_from_dict_round_trip
    {c : Cls} {d : Attrs}
    (hdict : c.hasDict = true)
    (hmir : c.ctor.mirrored = true)
    (hmi : c.ctor.mIncl = none) (hme : c.ctor.mExcl = none)
    (hbody : c.ctor.body = [])
    (hprops : c.propNames = [])
    (hoc : c.dictOnlyCtor = true)
    (hdi : c.dictIncl = none) (hde : c.dictExcl = none)
    (hnd : (paramNames c).Nodup)
    (hkeys : ∀ k, k ∈ d.keys ↔ k ∈ paramNames c) :
    ∃ attrs, from_dict c d = .ok attrs ∧
      (∀ n, attrs.lookup n = d.lookup n) ∧
      (∀ n, (dictView c attrs).lookup n = d.lookup n) := by
  have hcontf : ∀ n, c.propNames.contains n = false := by
    intro n; rw [hprops]; rfl
  have hsn : ∀ n, storageName c n = n := by
    intro n
    unfold storageName
    rw [if_neg fun hc => by rw [hcontf n] at hc; exact Bool.noConfusion hc]
  have hressome : ∀ p ∈ c.ctor.params, (resolveArg d p).isSome = true := by
    intro p hp
    have hmemk : p.name ∈ d.keys :=
      (hkeys p.name).mpr (List.mem_map_of_mem _ hp)
    rcases Option.isSome_iff_exists.mp
      (Attrs.lookup_isSome_of_mem_keys hmemk) with ⟨w, hw⟩
    rw [resolveArg_of_lookup_some hw]
    rfl
  have hall : (c.ctor.params.all fun p => (resolveArg d p).isSome) = true :=
    List.all_eq_true.mpr hressome
  have hsub : (d.keys.all fun k => (paramNames c).contains k) = true :=
    List.all_eq_true.mpr fun k hk =>
      List.elem_eq_true_of_mem ((hkeys k).mp hk)
  obtain ⟨attrs, hm⟩ :=
    @mirrorArgs_ok_of_no_props c c.ctor.mIncl c.ctor.mExcl d
      c.ctor.params [] (fun p _ => hcontf p.name) hressome
  have hrun : runInit c d = .ok attrs := by
    unfold runInit
    rw [if_pos (by rw [hall, hsub]; rfl), if_pos hmir, hm, hbody]
    rfl
  have hfd : from_dict c d = .ok attrs := by
    unfold from_dict
    rw [if_pos hdict]
    exact hrun
  have hstor_map :
      (c.ctor.params.map fun q => storageName c q.name) = paramNames c := by
    unfold paramNames
    exact List.map_congr_left fun q _ => hsn q.name
  have hndstor : (c.ctor.params.map fun q => storageName c q.name).Nodup := by
    rw [hstor_map]; exact hnd
  have hlk : ∀ n, attrs.lookup n = d.lookup n := by
    intro n
    by_cases hn : n ∈ paramNames c
    · rcases exists_param_of_mem_paramNames hn with ⟨p, hp, hpn⟩
      have hmemk : p.name ∈ d.keys := (hkeys p.name).mpr (hpn ▸ hn)
      rcases Option.isSome_iff_exists.mp
        (Attrs.lookup_isSome_of_mem_keys hmemk) with ⟨w, hw⟩
      have hacc : filterAccepts c.ctor.mIncl c.ctor.mExcl p.name = true := by
        rw [hmi, hme]; rfl
      have hone := mirrorArgs_lookup hndstor hp hacc
        (resolveArg_of_lookup_some hw) hm
      rw [hsn] at hone
      rw [← hpn, hone, hw]
    · have hna : n ∉ attrs.keys := by
        intro hka
        rcases mirrorArgs_keys hm hka with h0 | ⟨p, hp, hpk⟩
        · simp [Attrs.keys] at h0
        · have hpn : p.name = n := by rw [← hpk, hsn]
          have h2 : p.name ∈ paramNames c := List.mem_map_of_mem _ hp
          rw [hpn] at h2
          exact hn h2
      have hnd2 : n ∉ d.keys := fun hk => hn ((hkeys n).mp hk)
      rw [Attrs.lookup_eq_none_of_not_mem hna,
        Attrs.lookup_eq_none_of_not_mem hnd2]
  refine ⟨attrs, hfd, hlk, ?_⟩
  intro n
  unfold dictView
  rw [if_pos hoc]
  by_cases hn : n ∈ paramNames c
  · have hmemk : n ∈ d.keys := (hkeys n).mpr hn
    rcases Option.isSome_iff_exists.mp
      (Attrs.lookup_isSome_of_mem_keys hmemk) with ⟨w, hw⟩
    have hg : getAttr c attrs n = some w := by
      unfold getAttr
      rw [hsn, hlk n, hw]
    have hacc : filterAccepts c.dictIncl c.dictExcl n = true := by
      rw [hdi, hde]; rfl
    rw [ctorArgsView_lookup_mem hnd hn hacc hg, hw]
  · rw [ctorArgsView_lookup_of_not_mem hn,
      Attrs.lookup_eq_none_of_not_mem fun hk => hn ((hkeys n).mp hk)]

/-- Witness for C3: `B.from_dict({'a': 2, 'b': 's'})` has
`vars(p) == {'a': 2, 'b': 's'}` and its view gives the mapping back. -/
theorem C3_witness :
    ∃ attrs,
      from_dict clsB [("a", Value.vInt 2), ("b", Value.vStr "s")] =
        .ok attrs ∧
      (∀ n, attrs.lookup n =
        Attrs.lookup [("a", Value.vInt 2), ("b", Value.vStr "s")] n) ∧
      (∀ n, (dictView clsB attrs).lookup n =
        Attrs.lookup [("a", Value.vInt 2), ("b", Value.vStr "s")] n) :=
  C3_from_dict_round_trip (c := clsB) rfl rfl rfl rfl rfl rfl rfl rfl rfl
    (by decide) (fun k => Iff.rfl)

/-- C10: because autoargs assigns constructor arguments through the
generated property setters, the setters' validation hooks run at
construction — when the first rejected parameter `p` (all parameters
before it mirror successfully) resolves to a value its hook rejects, the
constructor call raises that validation error and produces no instance. -/
theorem C10_validation_at_construction
    {c : Cls} {args : Attrs} {pre rest : List Param} {p : Param}
    {v : Value} {hook : Hook} {e : String} {a0 : Attrs}
    (hmir : c.ctor.mirrored = true)
    (hparams : c.ctor.params = pre ++ p :: rest)
    (harity : ((c.ctor.params.all fun q => (resolveArg args q).isSome) &&
        (args.keys.all fun k => (paramNames c).contains k)) = true)
    (hpre : mirrorArgs c c.ctor.mIncl c.ctor.mExcl args pre [] = .ok a0)
    (hacc : filterAccepts c.ctor.mIncl c.ctor.mExcl p.name = true)
    (hres : resolveArg args p = some v)
    (hprop : c.propNames.contains p.name = true)
    (hhook : hookFor c p.name = some hook)
    (hrej : hook v = some e) :
    runInit c args = .error (.validationError e) := by
  unfold runInit
  rw [if_pos harity, if_pos hmir, hparams, mirrorArgs_append]
  simp only [hpre]
  unfold mirrorArgs
  rw [if_pos hacc]
  simp only [hres, setAttr_error_of_hook_reject a0 hprop hhook hrej]

/-- Witness for C10: `HouseConfiguration('', 12)` raises the `minlens(0)`
validation error on `name` at construction. -/
theorem C10_witness :
    runInit houseConfiguration
      [("name", Value.vStr ""), ("surface", Value.vInt 12)] =
      .error (.validationError "length should be > 0") :=
  @C10_validation_at_construction houseConfiguration
    [("name", Value.vStr ""), ("surface", Value.vInt 12)] []
    [⟨"surface", none⟩] ⟨"name", none⟩ (Value.vStr "") minlens0
    "length should be > 0" []
    rfl rfl (by decide) rfl (by decide) rfl (by decide) rfl (by decide)
